import Mathlib

/-
  Verification of the stratified-sampling crawl engine of
  github-solidity-scraper.py against its specification.

  The Python source is shallowly embedded: module-level mutable state becomes
  explicit state records, the sqlite tables become lists of row records, and
  network responses become oracle values supplied as inputs.  Each definition
  is annotated with the source lines it embeds.
-/

namespace Scraper

/-! ## Stratum planner (source lines 91-92, 607, 685-686)

The bounds `strat_first`, `strat_last` are initialized as
`strat_first = min_size`, `strat_last = min(min_size + stratum_size - 1, max_size)`
(lines 91-92); the main loop runs `while strat_first <= args.max_size` (line 607)
and at the end of each iteration advances
`strat_first += args.stratum_size; strat_last = min(strat_last + args.stratum_size, args.max_size)`
(lines 685-686).  `strataFuel` unrolls this loop, collecting the `(first, last)`
bounds of every iteration; the fuel argument only serves termination and is
chosen large enough in `strata` (the loop advances `first` by at least 1 per
iteration, so `maxS + 1` iterations always suffice). -/

def strataFuel (maxS width : Nat) : Nat → Nat → Nat → List (Nat × Nat)
  | 0, _, _ => []
  | fuel + 1, first, last =>
    if first ≤ maxS then
      (first, last) :: strataFuel maxS width fuel (first + width) (min (last + width) maxS)
    else []

def strata (minS maxS width : Nat) : List (Nat × Nat) :=
  strataFuel maxS width (maxS + 1) minS (min (minS + width - 1) maxS)

theorem strataFuel_eq_nil (maxS width fuel first last : Nat) (h : maxS < first) :
    strataFuel maxS width fuel first last = [] := by
  cases fuel with
  | zero => rfl
  | succ n => simp [strataFuel]; omega

/-- Invariant-carrying induction over the stratum loop: starting from any
`first` with the loop's `last = min (first + width - 1) maxS` shape and enough
fuel, the generated bound list has head `(first, last)` when `first ≤ maxS`,
is empty otherwise, is contiguous (`Chain'`), consists of well-formed intervals
inside `[first, maxS]`, ends at `maxS`, and is pairwise disjoint. -/
theorem strataFuel_spec (maxS width : Nat) (hw : 1 ≤ width) :
    ∀ fuel first, maxS + 1 - first ≤ fuel →
      (first ≤ maxS → ∃ t, strataFuel maxS width fuel first (min (first + width - 1) maxS)
          = (first, min (first + width - 1) maxS) :: t) ∧
      (maxS < first → strataFuel maxS width fuel first (min (first + width - 1) maxS) = []) ∧
      List.Chain' (fun a b => b.1 = a.2 + 1)
        (strataFuel maxS width fuel first (min (first + width - 1) maxS)) ∧
      (∀ p ∈ strataFuel maxS width fuel first (min (first + width - 1) maxS),
        first ≤ p.1 ∧ p.1 ≤ p.2 ∧ p.2 ≤ maxS) ∧
      (∀ q, (strataFuel maxS width fuel first (min (first + width - 1) maxS)).getLast? = some q →
        q.2 = maxS) ∧
      List.Pairwise (fun a b => a.2 < b.1)
        (strataFuel maxS width fuel first (min (first + width - 1) maxS)) := by
  intro fuel
  induction fuel with
  | zero =>
    intro first hf
    have hlt : maxS < first := by omega
    refine ⟨fun h => absurd h (by omega), fun _ => rfl, ?_, ?_, ?_, ?_⟩
    · exact List.chain'_nil
    · intro p hp; simp [strataFuel] at hp
    · intro q hq; simp [strataFuel] at hq
    · exact List.Pairwise.nil
  | succ n ih =>
    intro first hf
    by_cases hle : first ≤ maxS
    · have hunfold : strataFuel maxS width (n + 1) first (min (first + width - 1) maxS)
          = (first, min (first + width - 1) maxS)
            :: strataFuel maxS width n (first + width)
                 (min (min (first + width - 1) maxS + width) maxS) := by
        simp [strataFuel, hle]
      by_cases hcl : first + width ≤ maxS + 1
      · -- unclamped stratum: `last = first + width - 1`
        have h1 : min (first + width - 1) maxS = first + width - 1 := by omega
        have h2 : min (min (first + width - 1) maxS + width) maxS
            = min (first + width + width - 1) maxS := by omega
        rw [h2] at hunfold
        have ih' := ih (first + width) (by omega)
        obtain ⟨ihHead, ihNil, ihChain, ihMem, ihLast, ihPw⟩ := ih'
        refine ⟨fun _ => ⟨_, hunfold⟩, fun h => absurd h (by omega), ?_, ?_, ?_, ?_⟩
        · rw [hunfold]
          refine List.chain'_cons'.mpr ⟨?_, ihChain⟩
          intro b hb
          by_cases hnext : first + width ≤ maxS
          · obtain ⟨t, ht⟩ := ihHead hnext
            rw [ht] at hb
            simp at hb
            rw [← hb]
            simp
            omega
          · rw [ihNil (by omega)] at hb
            simp at hb
        · intro p hp
          rw [hunfold] at hp
          rcases List.mem_cons.mp hp with hp | hp
          · rw [hp]; exact ⟨le_refl _, by simp; omega, by simp⟩
          · have := ihMem p hp
            exact ⟨by omega, this.2.1, this.2.2⟩
        · intro q hq
          rw [hunfold] at hq
          rcases hrest : strataFuel maxS width n (first + width)
              (min (first + width + width - 1) maxS) with _ | ⟨r, t⟩
          · rw [hrest] at hq
            simp at hq
            have hbig : maxS < first + width := by
              by_contra hc
              obtain ⟨t', ht'⟩ := ihHead (by omega)
              rw [ht'] at hrest
              exact List.noConfusion hrest
            have : q.2 = min (first + width - 1) maxS := by rw [← hq]
            rw [this]; omega
          · rw [hrest] at hq
            rw [List.getLast?_cons_cons] at hq
            exact ihLast q (by rw [hrest]; exact hq)
        · rw [hunfold]
          refine List.pairwise_cons.mpr ⟨?_, ihPw⟩
          intro b hb
          have := ihMem b hb
          simp
          omega
      · -- clamped stratum: `last = maxS`, and the loop stops after this one
        have h1 : min (first + width - 1) maxS = maxS := by omega
        have hnil : strataFuel maxS width n (first + width)
            (min (min (first + width - 1) maxS + width) maxS) = [] :=
          strataFuel_eq_nil _ _ _ _ _ (by omega)
        rw [hnil] at hunfold
        refine ⟨fun _ => ⟨_, hunfold⟩, fun h => absurd h (by omega), ?_, ?_, ?_, ?_⟩
        · rw [hunfold]; exact List.chain'_singleton _
        · intro p hp
          rw [hunfold] at hp
          simp at hp
          rw [hp]
          exact ⟨le_refl _, by simp; omega, by simp⟩
        · intro q hq
          rw [hunfold] at hq
          simp at hq
          rw [← hq]
          simp
          omega
        · rw [hunfold]; exact List.pairwise_singleton _ _
    · have hnil : strataFuel maxS width (n + 1) first (min (first + width - 1) maxS) = [] :=
        strataFuel_eq_nil _ _ _ _ _ (by omega)
      refine ⟨fun h => absurd h hle, fun _ => hnil, ?_, ?_, ?_, ?_⟩
      · rw [hnil]; exact List.chain'_nil
      · intro p hp; rw [hnil] at hp; simp at hp
      · intro q hq; rw [hnil] at hq; simp at hq
      · rw [hnil]; exact List.Pairwise.nil

/-- C1: for every configuration with `1 ≤ min_size ≤ max_size` and stratum
width `≥ 1`, the stratum sequence generated by the planner loop is contiguous
(each stratum's lower bound is the previous upper bound + 1, `Chain'`),
non-overlapping (`Pairwise`), consists of well-formed intervals, starts at
`min_size`, and its final upper bound equals `max_size`. -/
theorem stratum_coverage (minS maxS width : Nat)
    (hmin : 1 ≤ minS) (hmm : minS ≤ maxS) (hw : 1 ≤ width) :
    (strata minS maxS width).head? = some (minS, min (minS + width - 1) maxS) ∧
    List.Chain' (fun a b => b.1 = a.2 + 1) (strata minS maxS width) ∧
    List.Pairwise (fun a b => a.2 < b.1) (strata minS maxS width) ∧
    (∀ p ∈ strata minS maxS width, p.1 ≤ p.2) ∧
    (strata minS maxS width).getLast?.map Prod.snd = some maxS := by
  have hkey : strata minS maxS width
      = strataFuel maxS width (maxS + 1) minS (min (minS + width - 1) maxS) := rfl
  obtain ⟨hhead, _, hchain, hmem, hlast, hpw⟩ :=
    strataFuel_spec maxS width hw (maxS + 1) minS (by omega)
  obtain ⟨t, ht⟩ := hhead hmm
  rw [← hkey] at ht hchain hmem hlast hpw
  refine ⟨?_, hchain, hpw, ?_, ?_⟩
  · rw [ht]; rfl
  · intro p hp; exact (hmem p hp).2.1
  · have hne : strata minS maxS width ≠ [] := by rw [ht]; exact List.cons_ne_nil _ _
    obtain ⟨q, hq⟩ := Option.isSome_iff_exists.mp (List.getLast?_isSome.mpr hne)
    rw [hq]
    simp [hlast q hq]

/-- Witness for C1 at the concrete configuration
`min_size = 1, max_size = 12, stratum_size = 5`
(strata `[(1,5), (6,10), (11,12)]`). -/
theorem stratum_coverage_witness :
    (strata 1 12 5).head? = some (1, min (1 + 5 - 1) 12) ∧
    List.Chain' (fun a b => b.1 = a.2 + 1) (strata 1 12 5) ∧
    List.Pairwise (fun a b => a.2 < b.1) (strata 1 12 5) ∧
    (strata 1 12 5).getLast?.map Prod.snd = some 12 :=
  have h := stratum_coverage 1 12 5 (by decide) (by decide) (by decide)
  ⟨h.1, h.2.1, h.2.2.1, h.2.2.2.2⟩

/-! ## Compiler-version extraction (source lines 526-531)

`find_compiler_version` runs
`re.search(r'pragma solidity [<>^]?=?\s*([\d.]+)', text)` and returns
`group(1)` on a match, `""` otherwise.  The embedding implements this
leftmost-match search directly: `leadsWith` is the match of a literal prefix,
`findPragma` scans start positions left to right (as `re.search` does), and
`matchTail` matches the pattern tail after the literal `"pragma solidity "`.
The tail is matched greedily without backtracking, which is equivalent to the
regex semantics here because the character classes of the four tail pieces —
`[<>^]`, `=`, `\s`, `[\d.]` — are pairwise disjoint: giving back a character
consumed by an earlier optional/star piece can never let a later piece (or the
mandatory `[\d.]+`) succeed. -/

def isDigitDot (c : Char) : Bool := c.isDigit || c == '.'

def isSpaceChar (c : Char) : Bool :=
  c == ' ' || c == '\t' || c == '\n' || c == '\r' || c == '\x0b' || c == '\x0c'

/-- Does the pattern (first argument) occur at the very start of the list? -/
def leadsWith : List Char → List Char → Bool
  | [], _ => true
  | _ :: _, [] => false
  | p :: ps, c :: cs => p == c && leadsWith ps cs

/-- Does the pattern (first argument) occur anywhere in the list? -/
def containsSub : List Char → List Char → Bool
  | patt, [] => leadsWith patt []
  | patt, c :: cs => leadsWith patt (c :: cs) || containsSub patt cs

/-- The literal part `pragma solidity ` (with trailing blank) of the regex. -/
def pragmaLit : List Char := "pragma solidity ".toList

/-- The claim's pattern-free phrase `pragma solidity` (no trailing blank). -/
def pragmaWord : List Char := "pragma solidity".toList

/-- Match of the regex tail `[<>^]?=?\s*([\d.]+)` returning the group. -/
def matchTail (l : List Char) : Option (List Char) :=
  let l1 := match l with
    | c :: rest => if c == '<' || c == '>' || c == '^' then rest else l
    | [] => l
  let l2 := match l1 with
    | c :: rest => if c == '=' then rest else l1
    | [] => l1
  let l3 := l2.dropWhile isSpaceChar
  let g := l3.takeWhile isDigitDot
  if g.isEmpty then none else some g

/-- Leftmost search of `pragma solidity [<>^]?=?\s*([\d.]+)`, returning the
captured group of the first start position at which the whole regex matches. -/
def findPragma : List Char → Option (List Char)
  | [] => none
  | c :: rest =>
    if leadsWith pragmaLit (c :: rest) then
      match matchTail (List.drop 16 (c :: rest)) with
      | some g => some g
      | none => findPragma rest
    else findPragma rest

/-- Source lines 526-531: return the captured version, or the empty string. -/
def find_compiler_version (text : List Char) : List Char :=
  match findPragma text with
  | some g => g
  | none => []

theorem leadsWith_append_left (p q : List Char) :
    ∀ l, leadsWith (p ++ q) l = true → leadsWith p l = true := by
  induction p with
  | nil => intro l _; rfl
  | cons a ps ih =>
    intro l h
    cases l with
    | nil => simp [leadsWith] at h
    | cons c cs =>
      simp [leadsWith] at h ⊢
      exact ⟨h.1, ih cs h.2⟩

theorem leadsWith_self_append (p t : List Char) : leadsWith p (p ++ t) = true := by
  induction p with
  | nil => rfl
  | cons a ps ih => simp [leadsWith, ih]

theorem leadsWith_of_long (p : List Char) :
    ∀ x y : List Char, leadsWith p (x ++ y) = true → p.length ≤ x.length →
      leadsWith p x = true := by
  induction p with
  | nil => intro x y _ _; rfl
  | cons a ps ih =>
    intro x y h hlen
    cases x with
    | nil => simp at hlen
    | cons b xs =>
      simp [leadsWith] at h ⊢
      exact ⟨h.1, ih xs y h.2 (by simpa using hlen)⟩

theorem leadsWith_drop (y : List Char) :
    ∀ x p : List Char, leadsWith p (x ++ y) = true →
      leadsWith (List.drop x.length p) y = true := by
  intro x
  induction x with
  | nil => intro p h; simpa using h
  | cons a xs ih =>
    intro p h
    cases p with
    | nil => rfl
    | cons b ps =>
      simp [leadsWith] at h
      simpa using ih ps h.2

theorem findPragma_of_no_pragma :
    ∀ text : List Char, containsSub pragmaWord text = false → findPragma text = none := by
  intro text
  induction text with
  | nil => intro _; rfl
  | cons c cs ih =>
    intro h
    have hsplit : pragmaLit = pragmaWord ++ [' '] := by decide
    simp only [containsSub, Bool.or_eq_false_iff] at h
    have hguard : leadsWith pragmaLit (c :: cs) = false := by
      by_contra hg
      have hg' : leadsWith pragmaLit (c :: cs) = true := by
        cases hx : leadsWith pragmaLit (c :: cs)
        · exact absurd hx hg
        · rfl
      rw [hsplit] at hg'
      exact absurd (leadsWith_append_left pragmaWord [' '] (c :: cs) hg') (by simp [h.1])
    simp [findPragma, hguard]
    exact ih h.2

theorem findPragma_first_match (pre suf : List Char)
    (h : containsSub pragmaWord pre = false) :
    findPragma (pre ++ ("pragma solidity ^0.8.10;".toList ++ suf))
      = some "0.8.10".toList := by
  induction pre with
  | nil => rfl
  | cons c pre ih =>
    simp only [containsSub, Bool.or_eq_false_iff] at h
    have hsplit : pragmaLit = pragmaWord ++ [' '] := by decide
    have hguard : leadsWith pragmaLit
        ((c :: pre) ++ ("pragma solidity ^0.8.10;".toList ++ suf)) = false := by
      by_contra hg
      have hg' : leadsWith pragmaLit
          ((c :: pre) ++ ("pragma solidity ^0.8.10;".toList ++ suf)) = true := by
        cases hx : leadsWith pragmaLit ((c :: pre) ++ ("pragma solidity ^0.8.10;".toList ++ suf))
        · exact absurd hx hg
        · rfl
      by_cases hlen : pragmaWord.length ≤ (c :: pre).length
      · have h15 : leadsWith pragmaWord
            ((c :: pre) ++ ("pragma solidity ^0.8.10;".toList ++ suf)) = true := by
          rw [hsplit] at hg'
          exact leadsWith_append_left pragmaWord [' '] _ hg'
        have := leadsWith_of_long pragmaWord (c :: pre) _ h15 hlen
        simp [this] at h
      · have hdrop := leadsWith_drop ("pragma solidity ^0.8.10;".toList ++ suf)
          (c :: pre) pragmaLit hg'
        have hshort : leadsWith (List.drop (c :: pre).length pragmaLit)
            "pragma solidity ^0.8.10;".toList = true := by
          refine leadsWith_of_long _ "pragma solidity ^0.8.10;".toList suf hdrop ?_
          have hlenLit : pragmaLit.length = 16 := by decide
          have : (List.drop (c :: pre).length pragmaLit).length
              = 16 - (c :: pre).length := by
            rw [List.length_drop, hlenLit]
          rw [this]
          have : "pragma solidity ^0.8.10;".toList.length = 24 := by decide
          omega
        have hm : ∀ m : Nat, m < 15 → 1 ≤ m →
            leadsWith (List.drop m pragmaLit) "pragma solidity ^0.8.10;".toList = false := by
          decide
        have hm1 : 1 ≤ (c :: pre).length := by simp
        have hm2 : (c :: pre).length < 15 := by
          have : pragmaWord.length = 15 := by decide
          omega
        rw [hm (c :: pre).length hm2 hm1] at hshort
        exact Bool.noConfusion hshort
    rw [List.cons_append]
    rw [List.cons_append] at hguard
    simp only [findPragma]
    rw [if_neg (fun hx => by rw [hguard] at hx; exact Bool.noConfusion hx)]
    exact ih h.2

/-- C9 counterexample: the claim quantifies over *any* text containing
`pragma solidity ^0.8.10;`, but `re.search` returns the leftmost match, so a
text with an earlier pragma declaration yields that earlier version instead. -/
theorem version_extraction_counterexample :
    containsSub "pragma solidity ^0.8.10;".toList
        "pragma solidity 0.4.0; pragma solidity ^0.8.10;".toList = true ∧
    find_compiler_version "pragma solidity 0.4.0; pragma solidity ^0.8.10;".toList
      = "0.4.0".toList ∧
    "0.4.0".toList ≠ "0.8.10".toList := by
  exact ⟨by decide, by decide, by decide⟩

/-- C9 (amended): on any text of the form `pre ++ "pragma solidity ^0.8.10;"
++ suf` where `pre` contains no occurrence of `pragma solidity`, the extracted
version is `0.8.10`; and on any text containing no occurrence of
`pragma solidity` at all, the extracted version is the empty string. -/
theorem version_extraction (pre suf : List Char)
    (h : containsSub pragmaWord pre = false) :
    find_compiler_version (pre ++ ("pragma solidity ^0.8.10;".toList ++ suf))
        = "0.8.10".toList ∧
    ∀ text : List Char, containsSub pragmaWord text = false →
      find_compiler_version text = [] := by
  constructor
  · unfold find_compiler_version
    rw [findPragma_first_match pre suf h]
  · intro text htext
    unfold find_compiler_version
    rw [findPragma_of_no_pragma text htext]

/-- Witness for C9 (amended) on the concrete text
`contract C. pragma solidity ^0.8.10; end`, and the empty extraction on the
pragma-free text `contract C`. -/
theorem version_extraction_witness :
    find_compiler_version ("contract C. ".toList ++ ("pragma solidity ^0.8.10;".toList ++ " end".toList))
        = "0.8.10".toList ∧
    find_compiler_version "contract C".toList = [] :=
  have h := version_extraction "contract C. ".toList " end".toList (by decide)
  ⟨h.1, h.2 "contract C".toList (by decide)⟩

/-! ## Data model: sqlite rows and API items

The three tables of the schema (source lines 403-437).  `repo_id` is the
`INTEGER PRIMARY KEY` supplied by the API item; `file_id` and `comit_id` are
auto-assigned `INTEGER PRIMARY KEY` surrogates, modelled by `next_file_id` /
`next_comit_id` counters on the store.  The `UNIQUE` constraints are
`repo(repo_id)` (primary key), `file(path, repo_id)` and `comit(sha, file_id)`.
Network fetches that can raise are modelled by the `Fetch` oracle type. -/

inductive Fetch (α : Type) where
  | ok (val : α)
  | fail
  deriving DecidableEq

structure RepoRow where
  repo_id : Int
  name : String
  full_name : String
  description : Option String
  url : String
  fork : Int
  owner_id : Int
  owner_login : String
  deriving DecidableEq

structure FileRow where
  file_id : Nat
  name : List Char
  path : List Char
  sha : String
  repo_id : Int
  deriving DecidableEq

structure ComitRow where
  comit_id : Nat
  sha : String
  message : String
  size : Nat
  created : String
  content : List Char
  compiler_version : List Char
  parents : List String
  file_id : Nat
  deriving DecidableEq

structure DB where
  repo : List RepoRow
  file : List FileRow
  comit : List ComitRow
  next_file_id : Nat
  next_comit_id : Nat
  last_rowid : Nat
  deriving DecidableEq

/-- A commit item of the commits endpoint, together with the oracle outcome of
fetching its raw content (source lines 380-392). -/
structure CommitItem where
  sha : String
  message : String
  date : String
  parents : List String
  content : Fetch (List Char)
  deriving DecidableEq

/-- A tree entry of the recursive tree listing, together with the oracle
outcome of fetching its commit-history pages (source lines 337-344, 360-374). -/
structure TreeEntry where
  type : String
  path : List Char
  sha : String
  commits : Fetch (List (List CommitItem))
  deriving DecidableEq

/-- A repository item of a search-result page, together with the oracle
outcome of fetching its recursive file tree (source lines 328-344). -/
structure RepoItem where
  id : Int
  name : String
  full_name : String
  description : Option String
  url : String
  fork : Bool
  owner_id : Int
  owner_login : String
  default_branch : String
  tree : Fetch (List TreeEntry)
  deriving DecidableEq

/-- The module-level mutable state the crawl manipulates: the store plus the
population/sample counters of lines 98-108. -/
structure St where
  db : DB
  pop_repo : Int
  sam_repo : Int
  sam_file : Int
  sam_comit : Int
  total_sam_repo : Int
  total_sam_file : Int
  total_sam_comit : Int
  deriving DecidableEq

/-! ## De-duplicating store (source lines 439-521) -/

/-- Source lines 439-459: `INSERT OR IGNORE INTO repo` keyed on the
`repo_id` primary key, then `sam_repo += 1; total_sam_repo += 1`
unconditionally. -/
def insert_repo (st : St) (repo : RepoItem) : St :=
  let db := st.db
  let db' :=
    if db.repo.any (fun x => x.repo_id == repo.id) then db
    else { db with
           repo := db.repo ++ [{
             repo_id := repo.id
             name := repo.name
             full_name := repo.full_name
             description := repo.description
             url := repo.url
             fork := if repo.fork then 1 else 0
             owner_id := repo.owner_id
             owner_login := repo.owner_login }] }
  { st with
    db := db'
    sam_repo := st.sam_repo + 1
    total_sam_repo := st.total_sam_repo + 1 }

/-- Source lines 464-480: `INSERT OR IGNORE INTO file` keyed on
`UNIQUE(path, repo_id)`; returns `lastrowid` (the fresh surrogate id on a
successful insert, the connection's previous rowid on an ignored one), then
`sam_file += 1; total_sam_file += 1` unconditionally. -/
def insert_file (st : St) (name path : List Char) (sha : String) (repo_id : Int) :
    St × Nat :=
  let db := st.db
  let dup := db.file.any (fun x => x.path == path && x.repo_id == repo_id)
  let db' :=
    if dup then db
    else { db with
           file := db.file ++ [{
             file_id := db.next_file_id
             name := name
             path := path
             sha := sha
             repo_id := repo_id }]
           next_file_id := db.next_file_id + 1
           last_rowid := db.next_file_id }
  let fid := if dup then db.last_rowid else db.next_file_id
  ({ st with
     db := db'
     sam_file := st.sam_file + 1
     total_sam_file := st.total_sam_file + 1 }, fid)

/-- Source lines 487-505: `INSERT OR IGNORE INTO comit` keyed on
`UNIQUE(sha, file_id)`; the row stores the content, its length as `size` and
the extracted compiler version; then `sam_comit += 1; total_sam_comit += 1`
unconditionally. -/
def insert_comit (st : St) (commit : CommitItem) (content : List Char)
    (file_id : Nat) : St :=
  let db := st.db
  let db' :=
    if db.comit.any (fun x => x.sha == commit.sha && x.file_id == file_id) then db
    else { db with
           comit := db.comit ++ [{
             comit_id := db.next_comit_id
             sha := commit.sha
             message := commit.message
             size := content.length
             created := commit.date
             content := content
             compiler_version := find_compiler_version content
             parents := commit.parents
             file_id := file_id }]
           next_comit_id := db.next_comit_id + 1
           last_rowid := db.next_comit_id }
  { st with
    db := db'
    sam_comit := st.sam_comit + 1
    total_sam_comit := st.total_sam_comit + 1 }

/-- Source lines 507-510: `select count(*) from repo where full_name = ? and
repo_id = ?` compared against 1.  Note the key used here is the *pair*
`(full_name, id)`, not the insert key `repo_id` alone. -/
def known_repo (st : St) (item : RepoItem) : Bool :=
  st.db.repo.countP (fun x => x.full_name == item.full_name && x.repo_id == item.id) == 1

/-- Source lines 512-515. -/
def known_file (st : St) (path : List Char) (repo_id : Int) : Bool :=
  st.db.file.countP (fun x => x.path == path && x.repo_id == repo_id) == 1

/-- Source lines 518-521. -/
def known_commit (st : St) (sha : String) (file_id : Nat) : Bool :=
  st.db.comit.countP (fun x => x.sha == sha && x.file_id == file_id) == 1

/-! ## File filtering and name derivation (source lines 338-341) -/

def isWordChar (c : Char) : Bool := c.isAlphanum || c == '_'

def isWordHyphen (c : Char) : Bool := isWordChar c || c == '-'

/-- The filter `re.search(r'\w\.sol$', path)`: the path ends in `.sol`
preceded by a word character. -/
def matchesSolPath (path : List Char) : Bool :=
  match path.reverse with
  | 'l' :: 'o' :: 's' :: '.' :: c :: _ => isWordChar c
  | _ => false

/-- Lazy match of `[\w-]+?(?=\.)` at the current position: the shortest
nonempty run of word/hyphen characters here that is immediately followed by a
literal dot (the lazy `+?` prefers the shortest run, backtracking longer). -/
def matchNameAt : List Char → Option (List Char)
  | c :: d :: rest =>
    if isWordHyphen c then
      if d == '.' then some [c]
      else
        match matchNameAt (d :: rest) with
        | some g => some (c :: g)
        | none => none
    else none
  | _ => none

/-- Leftmost search of `[\w-]+?(?=\.)` over the path. -/
def findName : List Char → Option (List Char)
  | [] => none
  | c :: rest =>
    match matchNameAt (c :: rest) with
    | some g => some g
    | none => findName rest

/-- Source lines 340-341: the derived short name, falling back to the path. -/
def extractName (path : List Char) : List Char :=
  match findName path with
  | some g => g
  | none => path

/-! ## Crawl orchestrator (source lines 306-392) -/

/-- Source lines 377-392: one page of a file's commit history.  A known
commit is left alone; an unknown one has its raw content fetched — a failed
fetch skips just that commit (`continue`, line 386), a successful one is
inserted. -/
def download_commits_from_page (fid : Nat) : St → List CommitItem → St
  | st, [] => st
  | st, c :: rest =>
    if known_commit st c.sha fid then download_commits_from_page fid st rest
    else
      match c.content with
      | Fetch.fail => download_commits_from_page fid st rest
      | Fetch.ok txt => download_commits_from_page fid (insert_comit st c txt fid) rest

/-- Source lines 360-374: fetch the commit list (a failure skips the file's
commits entirely, line 366) and process every page in order. -/
def download_all_commits (st : St) (e : TreeEntry) (fid : Nat) : St :=
  match e.commits with
  | Fetch.fail => st
  | Fetch.ok pages => pages.foldl (fun s page => download_commits_from_page fid s page) st

/-- Source lines 337-344: the per-file loop over the tree entries of one
repository: keep blob entries with a `\w\.sol$` path, derive the short name,
and insert-and-crawl each file not yet known for this repository. -/
def process_tree (repo : RepoItem) : St → List TreeEntry → St
  | st, [] => st
  | st, e :: rest =>
    if e.type == "blob" && matchesSolPath e.path then
      let name := extractName e.path
      if known_file st e.path repo.id then process_tree repo st rest
      else
        let res := insert_file st name e.path e.sha repo.id
        process_tree repo (download_all_commits res.1 e res.2) rest
    else process_tree repo st rest

/-- Source lines 326-350: one search-result page.  An unknown repository is
inserted, then its tree is fetched — a failure skips the rest of this
repository via `continue` (line 335), which also skips the early-exit check of
lines 349-350; otherwise its tree is processed.  After each fully processed
item the loop returns early once `sam_repo >= pop_repo`. -/
def download_repos_from_page : St → List RepoItem → St
  | st, [] => st
  | st, repo :: rest =>
    if known_repo st repo then
      if st.sam_repo ≥ st.pop_repo then st else download_repos_from_page st rest
    else
      let st1 := insert_repo st repo
      match repo.tree with
      | Fetch.fail => download_repos_from_page st1 rest
      | Fetch.ok entries =>
        let st2 := process_tree repo st1 entries
        if st2.sam_repo ≥ st2.pop_repo then st2 else download_repos_from_page st2 rest

/-! ## Pagination of search results (source lines 312-323) -/

/-- One search-result page: its reported `total_count` and its items.  A page
has a `next` link exactly when further pages follow it in the oracle list. -/
structure PageData where
  total : Int
  items : List RepoItem
  deriving DecidableEq

/-- Source lines 314-322: the while-loop of `download_all_repos`.  Each list
element is one page fetched by `get(res.links['next']['url'])`; the returned
`Nat` counts the pages fetched by the loop.  After fetching, the population is
reconciled (`pop_repo = max(pop_repo, total + current_cumulative_pop)`,
lines 318-319), the page is processed, and the loop breaks once
`sam_repo >= pop_repo` (lines 321-322). -/
def next_pages_loop (cum : Int) : St → List PageData → St × Nat
  | st, [] => (st, 0)
  | st, p :: rest =>
    let st1 := { st with pop_repo := max st.pop_repo (p.total + cum) }
    let st2 := download_repos_from_page st1 p.items
    if st2.sam_repo ≥ st2.pop_repo then (st2, 1)
    else
      let r := next_pages_loop cum st2 rest
      (r.1, r.2 + 1)

/-- Source lines 312-323: process the first page (already fetched by
`search`), then follow the `next` links.  Note there is no early-exit check
between line 313 and the first fetch of the while loop. -/
def download_all_repos (st : St) (cum : Int) (firstPage : PageData)
    (more : List PageData) : St × Nat :=
  let st1 := download_repos_from_page st firstPage.items
  next_pages_loop cum st1 more

/-! ## Main-loop stratum body (source lines 607-676) -/

inductive SearchOrder where
  | asc
  | desc
  deriving DecidableEq

/-- The oracle outcome of one search query: its first response page and the
chain of pages reachable through `next` links. -/
structure QueryResult where
  firstPage : PageData
  more : List PageData
  deriving DecidableEq

/-- Source lines 609-612 and 620: at the top of each stratum iteration the
per-stratum counters are reset to 0, and the ascending query's `total_count`
becomes the population estimate. -/
def reset_stratum_counters (st : St) (pop : Int) : St :=
  { st with pop_repo := pop, sam_repo := 0, sam_file := 0, sam_comit := 0 }

/-- Source lines 609-646: the unlicensed branch of the main loop body for one
stratum.  Counters are reset (609-612), the ascending query's `total_count`
becomes the population (620), the ascending pass runs (625), and if the
resulting estimate exceeds 1000 a descending query is issued, reconciled with
`max` (640-641), and its pass runs (646).  The returned list records the
issued search queries in order. -/
def run_stratum_unlicensed (st0 : St) (ascQ descQ : QueryResult) :
    St × List SearchOrder :=
  let stA := reset_stratum_counters st0 ascQ.firstPage.total
  let st1 := (download_all_repos stA 0 ascQ.firstPage ascQ.more).1
  if st1.pop_repo > 1000 then
    let st2 := { st1 with pop_repo := max st1.pop_repo descQ.firstPage.total }
    let st3 := (download_all_repos st2 0 descQ.firstPage descQ.more).1
    (st3, [SearchOrder.asc, SearchOrder.desc])
  else (st1, [SearchOrder.asc])

/-- Source lines 654-676: one license iteration of the licensed branch.
`current_cumulative_pop` is set to the population so far (658), the license's
ascending `total_count` is accumulated (659), and if the running population
exceeds 1000 a descending query for the same license is issued and reconciled
with the cumulative offset added to its reading (670-671). -/
def run_license_step (st0 : St) (ascQ descQ : QueryResult) :
    St × List SearchOrder :=
  let cum := st0.pop_repo
  let stA := { st0 with pop_repo := st0.pop_repo + ascQ.firstPage.total }
  let st1 := (download_all_repos stA cum ascQ.firstPage ascQ.more).1
  if st1.pop_repo > 1000 then
    let st2 := { st1 with pop_repo := max st1.pop_repo (descQ.firstPage.total + cum) }
    let st3 := (download_all_repos st2 cum descQ.firstPage descQ.more).1
    (st3, [SearchOrder.asc, SearchOrder.desc])
  else (st1, [SearchOrder.asc])

/-! ## Checkpoint replay and resume (source lines 548-572) -/

/-- One data row of the statistics file (its header is
`stratum_first, stratum_last, population_repo, sample_repo, sample_file,
sample_comit`). -/
structure StatRow where
  strat_first : Int
  strat_last : Int
  pop_repo : Int
  sam_repo : Int
  sam_file : Int
  sam_comit : Int
  deriving DecidableEq

/-- The mutable bounds/counters the resume block manipulates. -/
structure ResumeState where
  strat_first : Int
  strat_last : Int
  pop_repo : Int
  sam_repo : Int
  sam_file : Int
  sam_comit : Int
  total_sam_repo : Int
  total_sam_file : Int
  total_sam_comit : Int
  deriving DecidableEq

/-- Source lines 553-562: replaying one logged row overwrites the bounds and
per-stratum counters and accumulates the totals. -/
def replay_row (s : ResumeState) (row : StatRow) : ResumeState :=
  { s with
    strat_first := row.strat_first
    strat_last := row.strat_last
    pop_repo := row.pop_repo
    sam_repo := row.sam_repo
    sam_file := row.sam_file
    sam_comit := row.sam_comit
    total_sam_repo := s.total_sam_repo + row.sam_repo
    total_sam_file := s.total_sam_file + row.sam_file
    total_sam_comit := s.total_sam_comit + row.sam_comit }

/-- Source lines 550-572: replay every row, then (if at least one data row was
seen, witnessed by `pop_repo > -1`) advance the bounds past the last completed
stratum and reset the per-stratum counters to the unknown marker `-1`. -/
def resume (stratum_size max_size : Int) (init : ResumeState)
    (rows : List StatRow) : ResumeState :=
  let s := rows.foldl replay_row init
  if s.pop_repo > -1 then
    { s with
      strat_first := s.strat_first + stratum_size
      strat_last := min (s.strat_last + stratum_size) max_size
      pop_repo := -1
      sam_repo := -1
      sam_file := -1
      sam_comit := -1 }
  else s

/-! ## Rate-limit-aware client (source lines 210-246) -/

/-- The parts of an HTTP response the 403 handler inspects. -/
structure Resp where
  status : Nat
  xRateLimitReset : Option Int
  retryAfter : Option Int
  url : String
  deriving DecidableEq

/-- Source lines 235-239: the wait computed by `handle_rate_limit_error` —
`max(0, reset - now)` from the `X-RateLimit-Reset` header when present, else
the `Retry-After` header with default 60. -/
def rate_limit_wait (now : Int) (r : Resp) : Int :=
  match r.xRateLimitReset with
  | some t => max 0 (t - now)
  | none =>
    match r.retryAfter with
    | some ra => ra
    | none => 60

inductive GetResult where
  | ok (r : Resp) (waits : List Int) (urls : List String)
  | err (status : Nat) (waits : List Int)
  | exhausted
  deriving DecidableEq

set_option linter.unusedVariables false in
/-- Source lines 210-246: the retry structure of `get`.  The script is the
oracle sequence of `(current time, response)` pairs for successive attempts.
A 403 response sleeps the computed wait and re-issues the request at the
response's own url (line 246); any other status `>= 400` is raised to the
caller after logging (lines 229-231); otherwise the response is returned.
`ok` carries the waits slept and the urls re-issued; `exhausted` means the
oracle script ended while the client was still retrying. -/
def get_model (reqUrl : String) : List (Int × Resp) → GetResult
  | [] => GetResult.exhausted
  | (now, r) :: rest =>
    if r.status == 403 then
      match get_model r.url rest with
      | GetResult.ok r' w u => GetResult.ok r' (rate_limit_wait now r :: w) (r.url :: u)
      | GetResult.err s w => GetResult.err s (rate_limit_wait now r :: w)
      | GetResult.exhausted => GetResult.exhausted
    else if 400 ≤ r.status then GetResult.err r.status []
    else GetResult.ok r [] []

/-! ## Store lemmas: presence after insert, no-op on duplicate -/

theorem insert_repo_mem (st : St) (r : RepoItem) :
    (insert_repo st r).db.repo.any (fun x => x.repo_id == r.id) = true := by
  simp only [insert_repo]
  cases h : st.db.repo.any (fun x => x.repo_id == r.id) with
  | true =>
    simpa using h
  | false =>
    simp [List.any_append]

theorem insert_repo_dup_length (st : St) (r : RepoItem)
    (h : st.db.repo.any (fun x => x.repo_id == r.id) = true) :
    (insert_repo st r).db.repo.length = st.db.repo.length := by
  simp only [insert_repo]
  rw [h]
  simp

theorem insert_file_mem (st : St) (name path : List Char) (sha : String) (rid : Int) :
    (insert_file st name path sha rid).1.db.file.any
      (fun x => x.path == path && x.repo_id == rid) = true := by
  simp only [insert_file]
  cases h : st.db.file.any (fun x => x.path == path && x.repo_id == rid) with
  | true =>
    simpa using h
  | false =>
    simp [List.any_append]

theorem insert_file_dup_length (st : St) (name path : List Char) (sha : String) (rid : Int)
    (h : st.db.file.any (fun x => x.path == path && x.repo_id == rid) = true) :
    (insert_file st name path sha rid).1.db.file.length = st.db.file.length := by
  simp only [insert_file]
  rw [h]
  simp

theorem insert_comit_mem (st : St) (c : CommitItem) (txt : List Char) (fid : Nat) :
    (insert_comit st c txt fid).db.comit.any
      (fun x => x.sha == c.sha && x.file_id == fid) = true := by
  simp only [insert_comit]
  cases h : st.db.comit.any (fun x => x.sha == c.sha && x.file_id == fid) with
  | true =>
    simpa using h
  | false =>
    simp [List.any_append]

theorem insert_comit_dup_length (st : St) (c : CommitItem) (txt : List Char) (fid : Nat)
    (h : st.db.comit.any (fun x => x.sha == c.sha && x.file_id == fid) = true) :
    (insert_comit st c txt fid).db.comit.length = st.db.comit.length := by
  simp only [insert_comit]
  rw [h]
  simp

/-- C2: inserting a repository, file, or revision a second time under the same
natural key — `repo_id` for repo, `(path, repo_id)` for file, `(sha, file_id)`
for comit — leaves the store's row count for that entity unchanged: the second
`INSERT OR IGNORE` is a silent no-op on store contents. -/
theorem idempotent_ingestion (st : St) (r r' : RepoItem) (hid : r'.id = r.id)
    (name name' path : List Char) (sha sha' : String) (rid : Int)
    (c c' : CommitItem) (hsha : c'.sha = c.sha) (txt txt' : List Char) (fid : Nat) :
    (insert_repo (insert_repo st r) r').db.repo.length
      = (insert_repo st r).db.repo.length ∧
    (insert_file (insert_file st name path sha rid).1 name' path sha' rid).1.db.file.length
      = (insert_file st name path sha rid).1.db.file.length ∧
    (insert_comit (insert_comit st c txt fid) c' txt' fid).db.comit.length
      = (insert_comit st c txt fid).db.comit.length := by
  refine ⟨?_, ?_, ?_⟩
  · apply insert_repo_dup_length
    rw [hid]
    exact insert_repo_mem st r
  · apply insert_file_dup_length
    exact insert_file_mem st name path sha rid
  · apply insert_comit_dup_length
    rw [hsha]
    exact insert_comit_mem st c txt fid

/-- The empty store. -/
def dbEmpty : DB :=
  { repo := [], file := [], comit := [], next_file_id := 1, next_comit_id := 1,
    last_rowid := 0 }

/-- A state with an empty store and freshly reset per-stratum counters. -/
def stC2 : St :=
  { db := dbEmpty, pop_repo := 5, sam_repo := 0, sam_file := 0, sam_comit := 0,
    total_sam_repo := 0, total_sam_file := 0, total_sam_comit := 0 }

def itemC2a : RepoItem :=
  { id := 42, name := "r", full_name := "alice/r", description := none, url := "u",
    fork := false, owner_id := 7, owner_login := "alice", default_branch := "main",
    tree := Fetch.fail }

/-- Same `id` as `itemC2a`, different remaining metadata. -/
def itemC2b : RepoItem :=
  { id := 42, name := "r2", full_name := "alice/r2", description := none, url := "u2",
    fork := true, owner_id := 7, owner_login := "alice", default_branch := "main",
    tree := Fetch.fail }

def commitC2a : CommitItem :=
  { sha := "c1", message := "m1", date := "d1", parents := [], content := Fetch.fail }

/-- Same `sha` as `commitC2a`, different remaining metadata. -/
def commitC2b : CommitItem :=
  { sha := "c1", message := "m2", date := "d2", parents := ["p"], content := Fetch.fail }

/-- Witness for C2 on a concrete empty store and two items per entity sharing
the natural key. -/
theorem idempotent_ingestion_witness :
    (insert_repo (insert_repo stC2 itemC2a) itemC2b).db.repo.length
      = (insert_repo stC2 itemC2a).db.repo.length ∧
    (insert_file (insert_file stC2 ['n'] ['a'] "s1" 5).1 ['m'] ['a'] "s2" 5).1.db.file.length
      = (insert_file stC2 ['n'] ['a'] "s1" 5).1.db.file.length ∧
    (insert_comit (insert_comit stC2 commitC2a ['x'] 9) commitC2b ['y'] 9).db.comit.length
      = (insert_comit stC2 commitC2a ['x'] 9).db.comit.length :=
  idempotent_ingestion stC2 itemC2a itemC2b rfl ['n'] ['m'] ['a'] "s1" "s2" 5
    commitC2a commitC2b rfl ['x'] ['y'] 9

/-- C10: every call to `insert_repo` / `insert_file` / `insert_comit`
increments its per-stratum and total sample counters by exactly one, even when
the `INSERT OR IGNORE` adds no row; in particular, when a repository whose
`id` is already stored is rediscovered under a different `full_name`,
`known_repo` (keyed on the pair) returns false, `insert_repo` adds no row
(keyed on `repo_id` alone), and the counters still increase. -/
theorem counter_overcount (st : St) (r : RepoItem)
    (hex : st.db.repo.any (fun x => x.repo_id == r.id) = true)
    (hnone : st.db.repo.countP
        (fun x => x.full_name == r.full_name && x.repo_id == r.id) = 0) :
    known_repo st r = false ∧
    (insert_repo st r).db.repo.length = st.db.repo.length ∧
    (insert_repo st r).sam_repo = st.sam_repo + 1 ∧
    (insert_repo st r).total_sam_repo = st.total_sam_repo + 1 ∧
    (∀ (s : St) (x : RepoItem), (insert_repo s x).sam_repo = s.sam_repo + 1 ∧
      (insert_repo s x).total_sam_repo = s.total_sam_repo + 1) ∧
    (∀ (s : St) (nm pth : List Char) (sh : String) (rid : Int),
      (insert_file s nm pth sh rid).1.sam_file = s.sam_file + 1 ∧
      (insert_file s nm pth sh rid).1.total_sam_file = s.total_sam_file + 1) ∧
    (∀ (s : St) (c : CommitItem) (txt : List Char) (fid : Nat),
      (insert_comit s c txt fid).sam_comit = s.sam_comit + 1 ∧
      (insert_comit s c txt fid).total_sam_comit = s.total_sam_comit + 1) := by
  refine ⟨?_, insert_repo_dup_length st r hex, rfl, rfl,
    fun s x => ⟨rfl, rfl⟩, fun s nm pth sh rid => ⟨rfl, rfl⟩,
    fun s c txt fid => ⟨rfl, rfl⟩⟩
  unfold known_repo
  rw [hnone]
  rfl

def rowC10 : RepoRow :=
  { repo_id := 42, name := "r", full_name := "alice/r", description := none,
    url := "u", fork := 0, owner_id := 7, owner_login := "alice" }

def stC10 : St :=
  { db := { dbEmpty with repo := [rowC10] },
    pop_repo := 5, sam_repo := 0, sam_file := 0, sam_comit := 0,
    total_sam_repo := 3, total_sam_file := 0, total_sam_comit := 0 }

/-- The stored repository `id` 42 rediscovered under full name `bob/r`. -/
def itemC10 : RepoItem :=
  { id := 42, name := "r", full_name := "bob/r", description := none, url := "u",
    fork := false, owner_id := 8, owner_login := "bob", default_branch := "main",
    tree := Fetch.fail }

def commitC10 : CommitItem :=
  { sha := "z9", message := "m", date := "d", parents := [], content := Fetch.fail }

/-- Witness for C10: id 42 is stored as `alice/r` and rediscovered as
`bob/r`; the file/commit counter bumps instantiated at concrete inputs. -/
theorem counter_overcount_witness :
    known_repo stC10 itemC10 = false ∧
    (insert_repo stC10 itemC10).db.repo.length = stC10.db.repo.length ∧
    (insert_repo stC10 itemC10).sam_repo = stC10.sam_repo + 1 ∧
    (insert_repo stC10 itemC10).total_sam_repo = stC10.total_sam_repo + 1 ∧
    (insert_file stC10 ['n'] ['p'] "s" 1).1.sam_file = stC10.sam_file + 1 ∧
    (insert_comit stC10 commitC10 ['x'] 2).sam_comit = stC10.sam_comit + 1 :=
  have h := counter_overcount stC10 itemC10 (by decide) (by decide)
  ⟨h.1, h.2.1, h.2.2.1, h.2.2.2.1,
   (h.2.2.2.2.2.1 stC10 ['n'] ['p'] "s" 1).1,
   (h.2.2.2.2.2.2 stC10 commitC10 ['x'] 2).1⟩

/-- C7: a tree-fetch failure for one repository skips only that repository's
remaining processing — its inserted metadata row is retained (the id is
present in the store afterwards) and the page loop continues with the next
item; a content-fetch failure for one commit skips only that single commit —
the page loop continues with the remaining commits of the same file. -/
theorem per_item_failure (st : St) (r : RepoItem) (rest : List RepoItem)
    (fid : Nat) (c : CommitItem) (cs : List CommitItem)
    (hkr : known_repo st r = false) (htree : r.tree = Fetch.fail)
    (hkc : known_commit st c.sha fid = false) (hcontent : c.content = Fetch.fail) :
    download_repos_from_page st (r :: rest)
      = download_repos_from_page (insert_repo st r) rest ∧
    (insert_repo st r).db.repo.any (fun x => x.repo_id == r.id) = true ∧
    download_commits_from_page fid st (c :: cs)
      = download_commits_from_page fid st cs := by
  refine ⟨?_, insert_repo_mem st r, ?_⟩
  · simp [download_repos_from_page, hkr, htree]
  · simp [download_commits_from_page, hkc, hcontent]

def stC7 : St :=
  { db := dbEmpty, pop_repo := 5, sam_repo := 0, sam_file := 0, sam_comit := 0,
    total_sam_repo := 0, total_sam_file := 0, total_sam_comit := 0 }

def itemC7 : RepoItem :=
  { id := 1, name := "a", full_name := "o/a", description := none, url := "u",
    fork := false, owner_id := 2, owner_login := "o", default_branch := "main",
    tree := Fetch.fail }

def commitC7 : CommitItem :=
  { sha := "c1", message := "m", date := "d", parents := [], content := Fetch.fail }

/-- Witness for C7 on a concrete empty store, one repository item with a
failing tree fetch and one commit item with a failing content fetch. -/
theorem per_item_failure_witness :
    download_repos_from_page stC7 (itemC7 :: [])
      = download_repos_from_page (insert_repo stC7 itemC7) [] ∧
    (insert_repo stC7 itemC7).db.repo.any (fun x => x.repo_id == itemC7.id) = true ∧
    download_commits_from_page 3 stC7 (commitC7 :: [])
      = download_commits_from_page 3 stC7 [] :=
  per_item_failure stC7 itemC7 [] 3 commitC7 [] (by decide) rfl (by decide) rfl

def stC8 : St :=
  { db := dbEmpty, pop_repo := 1, sam_repo := 0, sam_file := 0, sam_comit := 0,
    total_sam_repo := 0, total_sam_file := 0, total_sam_comit := 0 }

def itemC8 : RepoItem :=
  { id := 9, name := "b", full_name := "o/b", description := none, url := "u",
    fork := false, owner_id := 2, owner_login := "o", default_branch := "main",
    tree := Fetch.fail }

def pageC8a : PageData := { total := 1, items := [itemC8] }

def pageC8b : PageData := { total := 1, items := [] }

/-- C8 counterexample: a state in which the sampled count has already reached
the population estimate after the *first* page of a query, while a `next` link
is present.  The code of `download_all_repos` (lines 312-317) enters the while
loop and fetches one more page before the break check of lines 321-322 runs,
so one further page is fetched even though `sam_repo ≥ pop_repo` already
holds — contradicting "no further result pages are fetched". -/
theorem pagination_counterexample :
    (download_repos_from_page stC8 pageC8a.items).sam_repo
      ≥ (download_repos_from_page stC8 pageC8a.items).pop_repo ∧
    (download_all_repos stC8 0 pageC8a [pageC8b]).2 = 1 :=
  ⟨by decide, by decide⟩

/-- C8 (amended): the break check of lines 321-322 does stop pagination as
soon as it runs: whenever the state after processing a page fetched by the
while loop satisfies `sam_repo ≥ pop_repo`, exactly that one page and no more
is fetched by the loop.  Only the first page (processed at line 313, before
the loop) escapes the check, so reaching the threshold during the first page
still fetches one further page, as the counterexample shows. -/
theorem pagination_early_exit (st : St) (cum : Int) (p : PageData)
    (rest : List PageData)
    (h : (download_repos_from_page
          { st with pop_repo := max st.pop_repo (p.total + cum) } p.items).sam_repo
        ≥ (download_repos_from_page
          { st with pop_repo := max st.pop_repo (p.total + cum) } p.items).pop_repo) :
    (next_pages_loop cum st (p :: rest)).2 = 1 := by
  simp only [next_pages_loop]
  rw [if_pos h]

def stC8b : St :=
  { db := dbEmpty, pop_repo := 1, sam_repo := 2, sam_file := 0, sam_comit := 0,
    total_sam_repo := 2, total_sam_file := 0, total_sam_comit := 0 }

/-- Witness for the amended C8: with `sam_repo = 2 ≥ pop_repo = 1`, the loop
fetches exactly one page. -/
theorem pagination_early_exit_witness :
    (next_pages_loop 0 stC8b (pageC8b :: [])).2 = 1 :=
  pagination_early_exit stC8b 0 pageC8b [] (by decide)

/-! ## Population preservation through the crawl

`pop_repo` is only ever written by the two search reconciliations and the
per-page reconciliation of lines 318-319; the inserts and page processing
never touch it. -/

theorem insert_repo_pop (st : St) (r : RepoItem) :
    (insert_repo st r).pop_repo = st.pop_repo := rfl

theorem insert_file_pop (st : St) (name path : List Char) (sha : String) (rid : Int) :
    (insert_file st name path sha rid).1.pop_repo = st.pop_repo := rfl

theorem insert_comit_pop (st : St) (c : CommitItem) (txt : List Char) (fid : Nat) :
    (insert_comit st c txt fid).pop_repo = st.pop_repo := rfl

theorem download_commits_from_page_pop (fid : Nat) :
    ∀ (cs : List CommitItem) (st : St),
      (download_commits_from_page fid st cs).pop_repo = st.pop_repo := by
  intro cs
  induction cs with
  | nil => intro st; rfl
  | cons c rest ih =>
    intro st
    simp only [download_commits_from_page]
    by_cases h : known_commit st c.sha fid = true
    · rw [if_pos h]
      exact ih st
    · rw [if_neg h]
      cases hc : c.content with
      | fail => exact ih st
      | ok txt =>
        have h1 := ih (insert_comit st c txt fid)
        rw [insert_comit_pop] at h1
        exact h1

theorem foldl_commits_pop (fid : Nat) :
    ∀ (pages : List (List CommitItem)) (st : St),
      (pages.foldl (fun s page => download_commits_from_page fid s page) st).pop_repo
        = st.pop_repo := by
  intro pages
  induction pages with
  | nil => intro st; rfl
  | cons pg rest ih =>
    intro st
    simp only [List.foldl_cons]
    rw [ih]
    exact download_commits_from_page_pop fid pg st

theorem download_all_commits_pop (st : St) (e : TreeEntry) (fid : Nat) :
    (download_all_commits st e fid).pop_repo = st.pop_repo := by
  unfold download_all_commits
  cases e.commits with
  | fail => rfl
  | ok pages => exact foldl_commits_pop fid pages st

theorem process_tree_pop (repo : RepoItem) :
    ∀ (entries : List TreeEntry) (st : St),
      (process_tree repo st entries).pop_repo = st.pop_repo := by
  intro entries
  induction entries with
  | nil => intro st; rfl
  | cons e rest ih =>
    intro st
    simp only [process_tree]
    by_cases hb : (e.type == "blob" && matchesSolPath e.path) = true
    · rw [if_pos hb]
      by_cases hk : known_file st e.path repo.id = true
      · rw [if_pos hk]
        exact ih st
      · rw [if_neg hk]
        have h1 := ih (download_all_commits
          (insert_file st (extractName e.path) e.path e.sha repo.id).1 e
          (insert_file st (extractName e.path) e.path e.sha repo.id).2)
        rw [download_all_commits_pop, insert_file_pop] at h1
        exact h1
    · rw [if_neg hb]
      exact ih st

theorem download_repos_from_page_pop :
    ∀ (items : List RepoItem) (st : St),
      (download_repos_from_page st items).pop_repo = st.pop_repo := by
  intro items
  induction items with
  | nil => intro st; rfl
  | cons r rest ih =>
    intro st
    simp only [download_repos_from_page]
    have hiter : ∀ s2 : St, s2.pop_repo = st.pop_repo →
        (if s2.sam_repo ≥ s2.pop_repo then s2
         else download_repos_from_page s2 rest).pop_repo = st.pop_repo := by
      intro s2 h2
      by_cases he : s2.sam_repo ≥ s2.pop_repo
      · rw [if_pos he]
        exact h2
      · rw [if_neg he]
        rw [ih s2]
        exact h2
    by_cases hk : known_repo st r = true
    · rw [if_pos hk]
      exact hiter st rfl
    · rw [if_neg hk]
      cases ht : r.tree with
      | fail =>
        have h1 := ih (insert_repo st r)
        rw [insert_repo_pop] at h1
        exact h1
      | ok entries =>
        exact hiter (process_tree r (insert_repo st r) entries)
          (by rw [process_tree_pop, insert_repo_pop])

theorem next_pages_loop_pop (cum : Int) :
    ∀ (pages : List PageData) (st : St),
      (∀ p ∈ pages, p.total + cum ≤ st.pop_repo) →
      (next_pages_loop cum st pages).1.pop_repo = st.pop_repo := by
  intro pages
  induction pages with
  | nil => intro st _; rfl
  | cons p rest ih =>
    intro st hall
    have hp := hall p (List.mem_cons_self _ _)
    have hmax : max st.pop_repo (p.total + cum) = st.pop_repo := by omega
    simp only [next_pages_loop]
    have h2 : (download_repos_from_page
        { st with pop_repo := max st.pop_repo (p.total + cum) } p.items).pop_repo
        = st.pop_repo := by
      rw [download_repos_from_page_pop]
      exact hmax
    by_cases he : (download_repos_from_page
        { st with pop_repo := max st.pop_repo (p.total + cum) } p.items).sam_repo
      ≥ (download_repos_from_page
        { st with pop_repo := max st.pop_repo (p.total + cum) } p.items).pop_repo
    · rw [if_pos he]
      exact h2
    · rw [if_neg he]
      have hall2 : ∀ q ∈ rest, q.total + cum ≤ (download_repos_from_page
          { st with pop_repo := max st.pop_repo (p.total + cum) } p.items).pop_repo := by
        intro q hq
        rw [h2]
        exact hall q (List.mem_cons_of_mem _ hq)
      have h3 := ih _ hall2
      rw [h2] at h3
      exact h3

theorem download_all_repos_pop (st : St) (cum : Int) (fp : PageData)
    (more : List PageData)
    (hall : ∀ p ∈ more, p.total + cum ≤ st.pop_repo) :
    (download_all_repos st cum fp more).1.pop_repo = st.pop_repo := by
  unfold download_all_repos
  have h1 : (download_repos_from_page st fp.items).pop_repo = st.pop_repo :=
    download_repos_from_page_pop fp.items st
  have h2 := next_pages_loop_pop cum more (download_repos_from_page st fp.items)
    (by intro p hp; rw [h1]; exact hall p hp)
  rw [h1] at h2
  exact h2

/-- C4: population reconciliation.  When every page of the ascending query
reports `p1` and every page of the descending query reports `p2` (the two
`total_count` readings for the stratum) and the descending query is issued
(the estimate exceeds 1000), the population recorded for the stratum is the
maximum of the two readings — in the licensed branch, of the two readings
each offset by the cumulative per-license population. -/
theorem population_reconciliation (st0 : St) (ascQ descQ : QueryResult) (p1 p2 : Int)
    (ha1 : ascQ.firstPage.total = p1) (ha2 : ∀ p ∈ ascQ.more, p.total = p1)
    (hd1 : descQ.firstPage.total = p2) (hd2 : ∀ p ∈ descQ.more, p.total = p2) :
    (p1 > 1000 → (run_stratum_unlicensed st0 ascQ descQ).1.pop_repo = max p1 p2) ∧
    (st0.pop_repo + p1 > 1000 →
      (run_license_step st0 ascQ descQ).1.pop_repo
        = max (st0.pop_repo + p1) (st0.pop_repo + p2)) := by
  constructor
  · intro hgt
    simp only [run_stratum_unlicensed]
    set st1 := (download_all_repos (reset_stratum_counters st0 ascQ.firstPage.total)
      0 ascQ.firstPage ascQ.more).1 with hst1
    have h1 : st1.pop_repo = p1 := by
      rw [hst1, download_all_repos_pop]
      · rw [show (reset_stratum_counters st0 ascQ.firstPage.total).pop_repo
            = ascQ.firstPage.total from rfl, ha1]
      · intro p hp
        rw [show (reset_stratum_counters st0 ascQ.firstPage.total).pop_repo
            = ascQ.firstPage.total from rfl, ha2 p hp, ha1]
        omega
    rw [if_pos (by rw [h1]; exact hgt)]
    have h2 : (download_all_repos
        { st1 with pop_repo := max st1.pop_repo descQ.firstPage.total }
        0 descQ.firstPage descQ.more).1.pop_repo = max p1 p2 := by
      rw [download_all_repos_pop]
      · rw [show ({ st1 with pop_repo := max st1.pop_repo descQ.firstPage.total } : St).pop_repo
            = max st1.pop_repo descQ.firstPage.total from rfl, h1, hd1]
      · intro p hp
        rw [show ({ st1 with pop_repo := max st1.pop_repo descQ.firstPage.total } : St).pop_repo
            = max st1.pop_repo descQ.firstPage.total from rfl, hd2 p hp, h1, hd1]
        omega
    exact h2
  · intro hgt
    simp only [run_license_step]
    set st1 := (download_all_repos
      { st0 with pop_repo := st0.pop_repo + ascQ.firstPage.total }
      st0.pop_repo ascQ.firstPage ascQ.more).1 with hst1
    have h1 : st1.pop_repo = st0.pop_repo + p1 := by
      rw [hst1, download_all_repos_pop]
      · rw [show ({ st0 with pop_repo := st0.pop_repo + ascQ.firstPage.total } : St).pop_repo
            = st0.pop_repo + ascQ.firstPage.total from rfl, ha1]
      · intro p hp
        rw [show ({ st0 with pop_repo := st0.pop_repo + ascQ.firstPage.total } : St).pop_repo
            = st0.pop_repo + ascQ.firstPage.total from rfl, ha2 p hp, ha1]
        omega
    rw [if_pos (by rw [h1]; exact hgt)]
    have h2 : (download_all_repos
        { st1 with pop_repo := max st1.pop_repo (descQ.firstPage.total + st0.pop_repo) }
        st0.pop_repo descQ.firstPage descQ.more).1.pop_repo
        = max (st0.pop_repo + p1) (st0.pop_repo + p2) := by
      rw [download_all_repos_pop]
      · rw [show ({ st1 with
            pop_repo := max st1.pop_repo (descQ.firstPage.total + st0.pop_repo) } : St).pop_repo
            = max st1.pop_repo (descQ.firstPage.total + st0.pop_repo) from rfl, h1, hd1]
        omega
      · intro p hp
        rw [show ({ st1 with
            pop_repo := max st1.pop_repo (descQ.firstPage.total + st0.pop_repo) } : St).pop_repo
            = max st1.pop_repo (descQ.firstPage.total + st0.pop_repo) from rfl,
          hd2 p hp, h1, hd1]
        omega
    exact h2

def stC4 : St :=
  { db := dbEmpty, pop_repo := 200, sam_repo := 0, sam_file := 0, sam_comit := 0,
    total_sam_repo := 0, total_sam_file := 0, total_sam_comit := 0 }

def ascC4 : QueryResult := { firstPage := { total := 1500, items := [] }, more := [] }

def descC4 : QueryResult := { firstPage := { total := 1600, items := [] }, more := [] }

/-- Witness for C4 at concrete readings `p1 = 1500`, `p2 = 1600` and
cumulative offset 200. -/
theorem population_reconciliation_witness :
    (run_stratum_unlicensed stC4 ascC4 descC4).1.pop_repo = max 1500 1600 ∧
    (run_license_step stC4 ascC4 descC4).1.pop_repo
      = max (stC4.pop_repo + 1500) (stC4.pop_repo + 1600) :=
  ⟨(population_reconciliation stC4 ascC4 descC4 1500 1600 rfl
      (fun p hp => absurd hp (by simp [ascC4])) rfl
      (fun p hp => absurd hp (by simp [descC4]))).1 (by decide),
   (population_reconciliation stC4 ascC4 descC4 1500 1600 rfl
      (fun p hp => absurd hp (by simp [ascC4])) rfl
      (fun p hp => absurd hp (by simp [descC4]))).2 (by decide)⟩

/-- C5: result-cap stretching.  For a stratum (and per license facet in the
licensed branch), exactly two search queries — one ascending then one
descending — are issued when the population estimate after the ascending pass
exceeds 1000; only the ascending query is issued when it is at most 1000. -/
theorem result_cap_stretching (st0 : St) (ascQ descQ : QueryResult) :
    ((download_all_repos (reset_stratum_counters st0 ascQ.firstPage.total)
        0 ascQ.firstPage ascQ.more).1.pop_repo > 1000 →
      (run_stratum_unlicensed st0 ascQ descQ).2
        = [SearchOrder.asc, SearchOrder.desc]) ∧
    ((download_all_repos (reset_stratum_counters st0 ascQ.firstPage.total)
        0 ascQ.firstPage ascQ.more).1.pop_repo ≤ 1000 →
      (run_stratum_unlicensed st0 ascQ descQ).2 = [SearchOrder.asc]) ∧
    ((download_all_repos { st0 with pop_repo := st0.pop_repo + ascQ.firstPage.total }
        st0.pop_repo ascQ.firstPage ascQ.more).1.pop_repo > 1000 →
      (run_license_step st0 ascQ descQ).2
        = [SearchOrder.asc, SearchOrder.desc]) ∧
    ((download_all_repos { st0 with pop_repo := st0.pop_repo + ascQ.firstPage.total }
        st0.pop_repo ascQ.firstPage ascQ.more).1.pop_repo ≤ 1000 →
      (run_license_step st0 ascQ descQ).2 = [SearchOrder.asc]) := by
  refine ⟨?_, ?_, ?_, ?_⟩ <;> intro h
  · simp only [run_stratum_unlicensed]
    rw [if_pos h]
  · simp only [run_stratum_unlicensed]
    rw [if_neg (by omega)]
  · simp only [run_license_step]
    rw [if_pos h]
  · simp only [run_license_step]
    rw [if_neg (by omega)]

def ascC5small : QueryResult := { firstPage := { total := 5, items := [] }, more := [] }

def stC5zero : St :=
  { db := dbEmpty, pop_repo := 0, sam_repo := 0, sam_file := 0, sam_comit := 0,
    total_sam_repo := 0, total_sam_file := 0, total_sam_comit := 0 }

/-- Witness for C5: estimates 1500 (and 200 + 1500) exceed 1000 and issue both
orders; estimates 5 (and 0 + 5) issue only the ascending query. -/
theorem result_cap_stretching_witness :
    (run_stratum_unlicensed stC4 ascC4 descC4).2
      = [SearchOrder.asc, SearchOrder.desc] ∧
    (run_stratum_unlicensed stC4 ascC5small descC4).2 = [SearchOrder.asc] ∧
    (run_license_step stC4 ascC4 descC4).2
      = [SearchOrder.asc, SearchOrder.desc] ∧
    (run_license_step stC5zero ascC5small descC4).2 = [SearchOrder.asc] :=
  ⟨(result_cap_stretching stC4 ascC4 descC4).1 (by decide),
   (result_cap_stretching stC4 ascC5small descC4).2.1 (by decide),
   (result_cap_stretching stC4 ascC4 descC4).2.2.1 (by decide),
   (result_cap_stretching stC5zero ascC5small descC4).2.2.2 (by decide)⟩

/-- C3: resume.  For a statistics file whose last data row was written by this
program's planner — so it satisfies
`strat_last = min(strat_first + width - 1, max_size)` and has a known
population `pop_repo > -1` (every written row has `pop_repo ≥ 0`) — if a next
stratum exists (`strat_first + width ≤ max_size`), then after replaying every
row's counters into the cumulative totals, the next stratum's lower bound
equals the last completed stratum's upper bound + 1. -/
theorem resume_next_stratum (width maxS : Int) (init : ResumeState)
    (rows : List StatRow) (r : StatRow)
    (hpop : r.pop_repo > -1)
    (hwf : r.strat_last = min (r.strat_first + width - 1) maxS)
    (hnext : r.strat_first + width ≤ maxS) :
    (resume width maxS init (rows ++ [r])).strat_first = r.strat_last + 1 := by
  unfold resume
  rw [List.foldl_append]
  simp only [List.foldl_cons, List.foldl_nil, replay_row]
  rw [if_pos hpop]
  simp only []
  omega

def initC3 : ResumeState :=
  { strat_first := 1, strat_last := 5, pop_repo := -1, sam_repo := -1,
    sam_file := -1, sam_comit := -1, total_sam_repo := 0, total_sam_file := 0,
    total_sam_comit := 0 }

def rowC3 : StatRow :=
  { strat_first := 6, strat_last := 10, pop_repo := 3, sam_repo := 3,
    sam_file := 4, sam_comit := 5 }

/-- Witness for C3: after a completed stratum `[6, 10]` with width 5 and
maximum 100, the resumed run starts the next stratum at 11. -/
theorem resume_next_stratum_witness :
    (resume 5 100 initC3 ([] ++ [rowC3])).strat_first = rowC3.strat_last + 1 :=
  resume_next_stratum 5 100 initC3 [] rowC3 (by decide) (by decide) (by decide)

/-- C6: on HTTP 403 the client computes the wait as `max(0, reset - now)` when
the `X-RateLimit-Reset` header is present, else the `Retry-After` header
value, else the fixed fallback 60; it sleeps that wait and re-issues the
identical request (the response's own url); and a 403 is never surfaced to
the caller as an error. -/
theorem rate_limit_handling :
    (∀ (now t : Int) (r : Resp), r.xRateLimitReset = some t →
      rate_limit_wait now r = max 0 (t - now)) ∧
    (∀ (now ra : Int) (r : Resp), r.xRateLimitReset = none →
      r.retryAfter = some ra → rate_limit_wait now r = ra) ∧
    (∀ (now : Int) (r : Resp), r.xRateLimitReset = none →
      r.retryAfter = none → rate_limit_wait now r = 60) ∧
    (∀ (url : String) (script : List (Int × Resp)) (s : Nat) (w : List Int),
      get_model url script = GetResult.err s w → s ≠ 403) ∧
    (∀ (url : String) (now : Int) (r : Resp) (rest : List (Int × Resp))
      (r' : Resp) (w : List Int) (u : List String), r.status = 403 →
      get_model r.url rest = GetResult.ok r' w u →
      get_model url ((now, r) :: rest)
        = GetResult.ok r' (rate_limit_wait now r :: w) (r.url :: u)) := by
  refine ⟨?_, ?_, ?_, ?_, ?_⟩
  · intro now t r h
    unfold rate_limit_wait
    rw [h]
  · intro now ra r h1 h2
    unfold rate_limit_wait
    rw [h1, h2]
  · intro now r h1 h2
    unfold rate_limit_wait
    rw [h1, h2]
  · intro url script
    induction script generalizing url with
    | nil =>
      intro s w h
      simp [get_model] at h
    | cons a rest ih =>
      intro s w h
      obtain ⟨now, r⟩ := a
      simp only [get_model] at h
      by_cases h403 : (r.status == 403) = true
      · rw [if_pos h403] at h
        cases hm : get_model r.url rest with
        | ok r1 w1 u1 =>
          rw [hm] at h
          exact absurd h (by simp)
        | err s1 w1 =>
          rw [hm] at h
          simp at h
          have hne := ih r.url s1 w1 hm
          omega
        | exhausted =>
          rw [hm] at h
          exact absurd h (by simp)
      · rw [if_neg h403] at h
        by_cases h400 : 400 ≤ r.status
        · rw [if_pos h400] at h
          simp at h
          have hne : r.status ≠ 403 := by simpa using h403
          omega
        · rw [if_neg h400] at h
          exact absurd h (by simp)
  · intro url now r rest r' w u h403 hok
    simp only [get_model]
    rw [if_pos (by simp [h403])]
    rw [hok]

def resp403 : Resp :=
  { status := 403, xRateLimitReset := some 100, retryAfter := none, url := "u1" }

def respOk : Resp :=
  { status := 200, xRateLimitReset := none, retryAfter := none, url := "u2" }

def respErr : Resp :=
  { status := 404, xRateLimitReset := none, retryAfter := none, url := "u3" }

/-- Witness for C6: the three wait cases at concrete headers, a concrete
non-403 error propagation, and a concrete 403-then-200 retry. -/
theorem rate_limit_handling_witness :
    rate_limit_wait 5 resp403 = max 0 (100 - 5) ∧
    rate_limit_wait 5
      { status := 403, xRateLimitReset := none, retryAfter := some 7, url := "u" } = 7 ∧
    rate_limit_wait 5
      { status := 403, xRateLimitReset := none, retryAfter := none, url := "u" } = 60 ∧
    (404 : Nat) ≠ 403 ∧
    get_model "q" ((0, resp403) :: [(1, respOk)])
      = GetResult.ok respOk (rate_limit_wait 0 resp403 :: []) (resp403.url :: []) :=
  ⟨rate_limit_handling.1 5 100 resp403 rfl,
   rate_limit_handling.2.1 5 7
     { status := 403, xRateLimitReset := none, retryAfter := some 7, url := "u" } rfl rfl,
   rate_limit_handling.2.2.1 5
     { status := 403, xRateLimitReset := none, retryAfter := none, url := "u" } rfl rfl,
   rate_limit_handling.2.2.2.1 "q" [(0, respErr)] 404 [] (by decide),
   rate_limit_handling.2.2.2.2 "q" 0 resp403 [(1, respOk)] respOk [] [] rfl (by decide)⟩

end Scraper
